import Mathlib

/-!
Shallow embedding of the HalfBeats step-sequencer drum machine
(`src/main.py`) and proofs about its pattern store, playback clock and
MIDI export logic.

Python ints are modelled as `Nat` (all the quantities involved are
non-negative), Python lists as `List`, the `self.pattern` dict as a
function from drum name to step list, raising exceptions as returning
`none`, and the live MIDI output port as a `Bool` flag (present/absent)
together with an explicit list of the messages sent.
-/

/-- The `DRUM_NOTES` dict of `main.py`, in dict insertion order
(drum name, MIDI note). -/
def DRUM_NOTES : List (String × Nat) :=
  [("kick", 36), ("snare", 38), ("closed_hat", 42), ("open_hat", 46),
   ("low_tom", 45), ("mid_tom", 47), ("high_tom", 50), ("crash", 49),
   ("ride", 51)]

/-- `STEPS_PER_GROUP = 16`. -/
def STEPS_PER_GROUP : Nat := 16

/-- `self.pattern`: maps each drum name to its list of step flags
(Python ints `0`/`1`); only the nine `DRUM_NOTES` keys are relevant. -/
def Pattern : Type := String → List Nat

/-- Whether `d` is one of the nine drum keys of the pattern dict. -/
def isDrum (d : String) : Bool := (DRUM_NOTES.map Prod.fst).contains d

/-- `len(next(iter(self.pattern.values())))`: the length of the step list
of the first dict entry (insertion order, hence the first drum of
`DRUM_NOTES`). -/
def total_steps (p : Pattern) : Nat :=
  match DRUM_NOTES with
  | [] => 0
  | (d, _) :: _ => (p d).length

/-- A mido message as used by `main.py`: note-on / note-off with channel,
note, velocity and delta-time, or a `set_tempo` meta message (whose mido
`time` attribute defaults to 0). -/
inductive Msg : Type
  | note_on (channel note velocity time : Nat)
  | note_off (channel note velocity time : Nat)
  | set_tempo (tempo time : Nat)
deriving DecidableEq

/-- The `time` (delta-time) attribute of a message. -/
def Msg.time : Msg → Nat
  | .note_on _ _ _ t => t
  | .note_off _ _ _ t => t
  | .set_tempo _ t => t

/-- The truth test `step < len(self.pattern[drum]) and self.pattern[drum][step]`
used by `play_step` and `export_midi` (a Python int is truthy iff nonzero). -/
def cell_on (p : Pattern) (d : String) (step : Nat) : Bool :=
  decide (step < (p d).length) && ((p d).getD step 0 != 0)

/-- The inner `for drum, note in DRUM_NOTES.items()` loop of `export_midi`
for one step, threading the `step_written` flag; returns the messages
appended and the final flag. -/
def export_voices (p : Pattern) (ticks step : Nat) :
    List (String × Nat) → Bool → List Msg × Bool
  | [], written => ([], written)
  | (d, n) :: rest, written =>
    if cell_on p d step then
      let tail := export_voices p ticks step rest true
      (Msg.note_on 9 n 127 (if written then 0 else ticks) ::
        Msg.note_off 9 n 127 0 :: tail.1, tail.2)
    else
      export_voices p ticks step rest written

/-- One iteration of the outer `for step in range(total_steps)` loop of
`export_midi`: run the voice loop with `step_written = False`, then append
the placeholder `note_off(note=0, velocity=0, time=ticks)` when nothing
was written. -/
def export_step (p : Pattern) (ticks step : Nat) : List Msg :=
  let r := export_voices p ticks step DRUM_NOTES false
  if r.2 then r.1 else r.1 ++ [Msg.note_off 9 0 0 ticks]

/-- `MidiFile()` default resolution (`ticks_per_beat = 480`). -/
def TICKS_PER_BEAT : Nat := 480

/-- `ticks = mid.ticks_per_beat // 4`. -/
def ticks_per_step : Nat := TICKS_PER_BEAT / 4

/-- mido's `bpm2tempo(bpm) = int(round((60 * 1000000) / bpm))`: the exact
rational `60000000 / bpm` rounded to the nearest integer, ties to even.
(For integer `bpm ≤ 300` an exact tie would need `bpm` to divide
`120000000` with odd quotient, forcing `512 ∣ bpm`, so no tie occurs in
the valid BPM range and the float rounding agrees with the exact rational
rounding performed here.) -/
def bpm2tempo (bpm : Nat) : Nat :=
  let q := 60000000 / bpm
  let r := 60000000 % bpm
  if 2 * r < bpm then q
  else if bpm < 2 * r then q + 1
  else if q % 2 = 0 then q else q + 1

/-- `export_midi` (the track contents): the tempo meta message, then for
each step in `range(total_steps)` the messages appended by that step's
voice loop.  Filename handling and the actual file write are the external
file-sink collaborator and are not part of the encoding logic. -/
def export_midi (p : Pattern) (bpm : Nat) : List Msg :=
  Msg.set_tempo (bpm2tempo bpm) 0 ::
    (List.range (total_steps p)).flatMap (export_step p ticks_per_step)

/-- The drum machine state: the pattern dict, `group_count`, the playback
cursor `step_index`, whether the `QTimer` is running, the `is_playing`
flag, and whether `self.outport` is non-`None`. -/
structure DM : Type where
  pattern : Pattern
  group_count : Nat
  step_index : Nat
  timer_on : Bool
  is_playing : Bool
  outport : Bool

/-- `add_step_group`: increments `group_count` and appends one group of 16
zero cells to every drum's list (the loop body also creates UI buttons,
which are outside the core). -/
def add_step_group (s : DM) : DM :=
  { s with
    group_count := s.group_count + 1
    pattern := fun d =>
      if isDrum d then s.pattern d ++ List.replicate STEPS_PER_GROUP 0
      else s.pattern d }

/-- The cell write `self.pattern[drum][step_index] = int(btn.isChecked())`
performed by the closure returned by `make_toggle`.  A Python list index
assignment with `step_index >= len` raises `IndexError` before writing
anything, modelled by `none`. -/
def toggle (p : Pattern) (d : String) (i : Nat) (b : Bool) : Option Pattern :=
  if i < (p d).length then
    some (fun d2 => if d2 = d then (p d).set i (if b then 1 else 0) else p d2)
  else none

/-- Reading a cell back, `self.pattern[drum][step_index]` as a boolean
(Python truthiness); out-of-range indexing raises, modelled by `none`. -/
def is_active (p : Pattern) (d : String) (i : Nat) : Option Bool :=
  if i < (p d).length then some ((p d).getD i 0 != 0) else none

/-- `preview_note`: when an output port is open, send a note-on and a
note-off (`time=100`) for the note on channel 9; with no port, nothing. -/
def preview_note (outport : Bool) (note : Nat) : List Msg :=
  if outport then
    [Msg.note_on 9 note 127 0, Msg.note_off 9 note 127 100]
  else []

/-- The closure returned by `make_toggle(drum, step_index, btn, note)`,
invoked with the button's new checked state `b`: write the cell, then call
`preview_note` when the new state is on.  `none` models the `IndexError`
of an out-of-range write (raised before any mutation or preview). -/
def make_toggle (s : DM) (d : String) (i : Nat) (note : Nat) (b : Bool) :
    Option (DM × List Msg) :=
  (toggle s.pattern d i b).map fun p2 =>
    ({ s with pattern := p2 }, if b then preview_note s.outport note else [])

/-- The messages sent by one `play_step` call at cursor `i`: nothing when
`self.outport` is `None`, otherwise a note-on/note-off pair for every drum
active at step `i`, in `DRUM_NOTES` order. -/
def tick_events (p : Pattern) (outport : Bool) (i : Nat) : List Msg :=
  if outport then
    DRUM_NOTES.flatMap fun dn =>
      if cell_on p dn.1 i then
        [Msg.note_on 9 dn.2 127 0, Msg.note_off 9 dn.2 127 100]
      else []
  else []

/-- `play_step`: compute `total_steps`, emit the active cells at the
cursor (when a port is open), then advance
`step_index = (step_index + 1) % total_steps`.  When `total_steps` is 0
the final `% 0` raises `ZeroDivisionError`, modelled by `none` (with an
all-empty pattern no message is sent before the raise). -/
def play_step (s : DM) : Option (DM × List Msg) :=
  if total_steps s.pattern = 0 then none
  else
    some ({ s with step_index := (s.step_index + 1) % total_steps s.pattern },
          tick_events s.pattern s.outport s.step_index)

/-- `start_playback`: reads the BPM spinner, computes the timer interval
from it (`int((60 / bpm) * 1000 / 4)`, a division by `bpm` only — the
spinner bounds keep `bpm` in `[30, 300]`) and starts the timer.  There is
no emptiness check on the pattern. -/
def start_playback (s : DM) : DM :=
  { s with timer_on := true, is_playing := true }

/-- `pause_playback`: stops the timer, cursor untouched. -/
def pause_playback (s : DM) : DM :=
  { s with timer_on := false, is_playing := false }

/-- `stop_playback`: stops the timer and resets the cursor to 0. -/
def stop_playback (s : DM) : DM :=
  { s with timer_on := false, step_index := 0, is_playing := false }

/-- The pattern dict as built by `__init__`:
`{drum: [] for drum in DRUM_NOTES}` (every key maps to the empty list). -/
def init_pattern : Pattern := fun _ => []

/-- The state set up by `__init__` before `init_ui` runs: empty pattern,
`group_count = 0`, cursor 0, timer stopped. -/
def pre_ui_state (outport : Bool) : DM :=
  { pattern := init_pattern, group_count := 0, step_index := 0,
    timer_on := false, is_playing := false, outport := outport }

/-- The state right after construction: `__init__` calls `init_ui`, and
`init_ui` calls `self.add_step_group()` once ("Add first group"). -/
def init_state (outport : Bool) : DM := add_step_group (pre_ui_state outport)

/-- A pattern-store operation: an "+ Add Group" click or a cell-toggle
click (with the button's new state). -/
inductive Op : Type
  | add : Op
  | tog (d : String) (i : Nat) (b : Bool) : Op

/-- Apply one operation to the state.  An out-of-range toggle raises and
thus leaves the state unchanged. -/
def apply_op (s : DM) : Op → DM
  | .add => add_step_group s
  | .tog d i b =>
    match toggle s.pattern d i b with
    | some p2 => { s with pattern := p2 }
    | none => s

/-- Run a sequence of operations. -/
def run_ops (s : DM) : List Op → DM
  | [] => s
  | o :: rest => run_ops (apply_op s o) rest

/-- Number of add-group operations in a sequence. -/
def count_adds : List Op → Nat
  | [] => 0
  | .add :: rest => count_adds rest + 1
  | .tog _ _ _ :: rest => count_adds rest

/-- Iterate `play_step` (timer ticks), keeping only the state. -/
def run_ticks : Nat → DM → Option DM
  | 0, s => some s
  | n + 1, s => (play_step s).bind fun r => run_ticks n r.1

/-- The active voices of a step, in `DRUM_NOTES` order. -/
def active_voices (p : Pattern) (step : Nat) : List (String × Nat) :=
  DRUM_NOTES.filter fun dn => cell_on p dn.1 step

/-- Note-on/note-off pairs all carrying delta-time 0 (the shape of the
events of a step after its first). -/
def flat_pairs : List (String × Nat) → List Msg
  | [] => []
  | (_, n) :: rest =>
    Msg.note_on 9 n 127 0 :: Msg.note_off 9 n 127 0 :: flat_pairs rest

/-- Sum of the delta-times of a message list. -/
def delta_sum (l : List Msg) : Nat := (l.map Msg.time).sum

/-- The per-voice length invariant: every drum's list has
`group_count * STEPS_PER_GROUP` entries. -/
def len_inv (s : DM) : Prop :=
  ∀ dn ∈ DRUM_NOTES, (s.pattern dn.1).length = s.group_count * STEPS_PER_GROUP

/-- A concrete one-group pattern (all cells off), used to instantiate
theorems at concrete inputs. -/
def pattern_one : Pattern := fun _ => List.replicate 16 0

/-- A concrete two-step pattern: kick and snare active at step 0, nothing
at step 1; used to instantiate theorems at concrete inputs. -/
def pattern_two : Pattern := fun d =>
  if d = "kick" then [1, 0] else if d = "snare" then [1, 0] else [0, 0]

/-! ### Characterization of the export loops -/

/-- With `step_written` already set, the voice loop emits all-zero-delta
pairs for exactly the active voices, in table order. -/
theorem export_voices_fst_true (p : Pattern) (ticks step : Nat) :
    ∀ l : List (String × Nat),
      (export_voices p ticks step l true).1 =
        flat_pairs (l.filter fun dn => cell_on p dn.1 step) := by
  intro l
  induction l with
  | nil => rfl
  | cons hd tl ih =>
    obtain ⟨d, n⟩ := hd
    by_cases h : cell_on p d step
    · simp [export_voices, List.filter_cons, h, flat_pairs, ih]
    · simp [export_voices, List.filter_cons, h, ih]

/-- The final `step_written` flag is set iff it started set or some voice
in the list is active at the step. -/
theorem export_voices_snd (p : Pattern) (ticks step : Nat) :
    ∀ (l : List (String × Nat)) (w : Bool),
      (export_voices p ticks step l w).2 =
        (w || !(l.filter fun dn => cell_on p dn.1 step).isEmpty) := by
  intro l
  induction l with
  | nil => simp [export_voices]
  | cons hd tl ih =>
    intro w
    obtain ⟨d, n⟩ := hd
    by_cases h : cell_on p d step
    · simp [export_voices, List.filter_cons, h, ih]
    · simp [export_voices, List.filter_cons, h, ih]

/-- The messages the voice loop emits: nothing when no voice is active,
otherwise the first active voice's pair with delta `ticks` (when the flag
started clear) followed by zero-delta pairs of the remaining active
voices. -/
theorem export_voices_fst (p : Pattern) (ticks step : Nat) :
    ∀ (l : List (String × Nat)) (w : Bool),
      (export_voices p ticks step l w).1 =
        match l.filter fun dn => cell_on p dn.1 step with
        | [] => []
        | (_, n) :: rest =>
          Msg.note_on 9 n 127 (if w then 0 else ticks) ::
            Msg.note_off 9 n 127 0 :: flat_pairs rest := by
  intro l
  induction l with
  | nil => intro w; rfl
  | cons hd tl ih =>
    intro w
    obtain ⟨d, n⟩ := hd
    by_cases h : cell_on p d step
    · simp only [export_voices, h, if_true, List.filter_cons]
      rw [export_voices_fst_true]
    · simp only [export_voices, h, List.filter_cons]
      simp only [Bool.false_eq_true, if_false, cond_false]
      exact ih w

/-- A step with no active voice contributes exactly the placeholder
note-off (note 0, velocity 0) carrying the full `ticks` delta. -/
theorem export_step_empty (p : Pattern) (ticks step : Nat)
    (h : active_voices p step = []) :
    export_step p ticks step = [Msg.note_off 9 0 0 ticks] := by
  simp only [export_step]
  rw [export_voices_snd, export_voices_fst]
  unfold active_voices at h
  simp [h]

/-- A step with at least one active voice contributes the first active
voice's note-on with delta `ticks`, its note-off with delta 0, then
zero-delta pairs for the remaining active voices. -/
theorem export_step_cons (p : Pattern) (ticks step : Nat)
    (d : String) (n : Nat) (rest : List (String × Nat))
    (h : active_voices p step = (d, n) :: rest) :
    export_step p ticks step =
      Msg.note_on 9 n 127 ticks :: Msg.note_off 9 n 127 0 ::
        flat_pairs rest := by
  simp only [export_step]
  rw [export_voices_snd, export_voices_fst]
  unfold active_voices at h
  simp [h]

/-- Every message of `flat_pairs` carries delta-time 0. -/
theorem flat_pairs_time (l : List (String × Nat)) :
    ∀ m ∈ flat_pairs l, Msg.time m = 0 := by
  induction l with
  | nil => intro m hm; cases hm
  | cons hd tl ih =>
    obtain ⟨d, n⟩ := hd
    intro m hm
    simp only [flat_pairs, List.mem_cons] at hm
    rcases hm with rfl | rfl | hm
    · rfl
    · rfl
    · exact ih m hm

/-- `delta_sum` distributes over append. -/
theorem delta_sum_append (a b : List Msg) :
    delta_sum (a ++ b) = delta_sum a + delta_sum b := by
  simp [delta_sum]

/-- The zero-delta pairs contribute nothing to the delta-time total. -/
theorem delta_sum_flat_pairs (l : List (String × Nat)) :
    delta_sum (flat_pairs l) = 0 := by
  induction l with
  | nil => rfl
  | cons hd tl ih =>
    obtain ⟨d, n⟩ := hd
    simp [flat_pairs, delta_sum, Msg.time] at ih ⊢
    exact ih

/-- Each step of the export contributes exactly `ticks` to the delta-time
total, whether or not any voice is active. -/
theorem delta_sum_export_step (p : Pattern) (ticks step : Nat) :
    delta_sum (export_step p ticks step) = ticks := by
  cases h : active_voices p step with
  | nil =>
    rw [export_step_empty p ticks step h]
    simp [delta_sum, Msg.time]
  | cons hd rest =>
    obtain ⟨d, n⟩ := hd
    rw [export_step_cons p ticks step d n rest h]
    have h0 := delta_sum_flat_pairs rest
    simp [delta_sum, Msg.time] at h0 ⊢
    exact h0

/-- The note events of the first `n` steps carry `n * ticks` total
delta-time. -/
theorem delta_sum_export_range (p : Pattern) (ticks : Nat) :
    ∀ n : Nat,
      delta_sum ((List.range n).flatMap (export_step p ticks)) = n * ticks := by
  intro n
  induction n with
  | zero => simp [delta_sum]
  | succ n ih =>
    rw [List.range_succ, List.flatMap_append, delta_sum_append, ih]
    simp [delta_sum_export_step, Nat.succ_mul]

/-- C2: For every pattern and every BPM, the delta-times of the exported
track sum to `total_steps * ticks_per_step`, independently of which and
how many cells are active (the tempo meta message carries delta 0; an
active step packs its whole `ticks_per_step` delta on its first event and
an empty step carries it on the placeholder). -/
theorem export_delta_sum_total (p : Pattern) (bpm : Nat) :
    delta_sum (export_midi p bpm) = total_steps p * ticks_per_step := by
  unfold export_midi
  have h := delta_sum_export_range p ticks_per_step (total_steps p)
  simp [delta_sum, Msg.time] at h ⊢
  exact h

/-- C1: For every pattern and every step processed by the export, the
messages written for that step are: when some voice is active, the note-on
of the first active voice in Voice Table order with delta-time
`ticks_per_step` followed only by delta-0 messages (its note-off and the
zero-delta pairs of the remaining active voices); when no voice is active,
exactly one placeholder note-off (note 0, velocity 0) with delta-time
`ticks_per_step`. -/
theorem export_step_delta_rule (p : Pattern) (step : Nat) :
    (export_step p ticks_per_step step =
      match active_voices p step with
      | [] => [Msg.note_off 9 0 0 ticks_per_step]
      | (_, n) :: rest =>
        Msg.note_on 9 n 127 ticks_per_step :: Msg.note_off 9 n 127 0 ::
          flat_pairs rest)
    ∧ ∀ m ∈ (export_step p ticks_per_step step).tail, Msg.time m = 0 := by
  cases h : active_voices p step with
  | nil =>
    rw [export_step_empty p ticks_per_step step h]
    exact ⟨rfl, by intro m hm; cases hm⟩
  | cons hd rest =>
    obtain ⟨d, n⟩ := hd
    rw [export_step_cons p ticks_per_step step d n rest h]
    refine ⟨rfl, ?_⟩
    intro m hm
    simp only [List.tail_cons, List.mem_cons] at hm
    rcases hm with rfl | hm
    · rfl
    · exact flat_pairs_time rest m hm

/-! ### Pattern store invariants -/

/-- Every entry of `DRUM_NOTES` is a drum key. -/
theorem isDrum_of_mem (dn : String × Nat) (h : dn ∈ DRUM_NOTES) :
    isDrum dn.1 = true := by
  exact List.elem_eq_true_of_mem (List.mem_map_of_mem Prod.fst h)

/-- A successful cell write never changes any list's length. -/
theorem toggle_length (p : Pattern) (d : String) (i : Nat) (b : Bool)
    (q : Pattern) (h : toggle p d i b = some q) :
    ∀ d2, (q d2).length = (p d2).length := by
  intro d2
  by_cases hi : i < (p d).length
  · simp only [toggle, hi, if_true, Option.some.injEq] at h
    subst h
    by_cases hd : d2 = d
    · simp [hd]
    · simp [hd]
  · simp [toggle, hi] at h

/-- Each operation preserves the length invariant. -/
theorem len_inv_apply_op (s : DM) (o : Op) (h : len_inv s) :
    len_inv (apply_op s o) := by
  cases o with
  | add =>
    intro dn hdn
    simp only [apply_op, add_step_group, isDrum_of_mem dn hdn, if_true,
      List.length_append, List.length_replicate]
    rw [h dn hdn, Nat.succ_mul]
  | tog d i b =>
    intro dn hdn
    simp only [apply_op]
    cases ht : toggle s.pattern d i b with
    | none => exact h dn hdn
    | some q => rw [toggle_length s.pattern d i b q ht dn.1]; exact h dn hdn

/-- Operations change `group_count` by their number of add-group clicks. -/
theorem run_ops_len_inv :
    ∀ (ops : List Op) (s : DM), len_inv s →
      len_inv (run_ops s ops)
      ∧ (run_ops s ops).group_count = s.group_count + count_adds ops := by
  intro ops
  induction ops with
  | nil => intro s h; exact ⟨h, rfl⟩
  | cons o rest ih =>
    intro s h
    have h2 := ih (apply_op s o) (len_inv_apply_op s o h)
    refine ⟨h2.1, ?_⟩
    show (run_ops (apply_op s o) rest).group_count
      = s.group_count + count_adds (o :: rest)
    rw [h2.2]
    cases o with
    | add => simp only [apply_op, add_step_group, count_adds]; omega
    | tog d i b =>
      simp only [apply_op, count_adds]
      cases ht : toggle s.pattern d i b <;> simp

/-- C4: Starting from the freshly built (pre-UI) empty pattern, after any
interleaving of add-group and toggle operations every drum's list has
length `groups_added * STEPS_PER_GROUP`, all per-voice lists have equal
length, and `group_count` counts exactly the add-group operations:
`add_step_group` extends every voice together and no toggle ever changes a
length. -/
theorem add_group_length_invariant (outport : Bool) (ops : List Op) :
    (run_ops (pre_ui_state outport) ops).group_count = count_adds ops
    ∧ (∀ dn ∈ DRUM_NOTES,
        ((run_ops (pre_ui_state outport) ops).pattern dn.1).length
          = count_adds ops * STEPS_PER_GROUP)
    ∧ ∀ dn1 ∈ DRUM_NOTES, ∀ dn2 ∈ DRUM_NOTES,
        ((run_ops (pre_ui_state outport) ops).pattern dn1.1).length
          = ((run_ops (pre_ui_state outport) ops).pattern dn2.1).length := by
  have h0 : len_inv (pre_ui_state outport) := by
    intro dn hdn; rfl
  have h := run_ops_len_inv ops (pre_ui_state outport) h0
  have hg : (run_ops (pre_ui_state outport) ops).group_count = count_adds ops := by
    rw [h.2]
    exact Nat.zero_add _
  refine ⟨hg, ?_, ?_⟩
  · intro dn hdn
    rw [h.1 dn hdn, hg]
  · intro dn1 h1 dn2 h2
    rw [h.1 dn1 h1, h.1 dn2 h2]

/-- Reading an index just written: `(l.set i v).getD i 0 = v` in range. -/
theorem getD_set_self (l : List Nat) (i v : Nat) (h : i < l.length) :
    (l.set i v).getD i 0 = v := by
  induction l generalizing i with
  | nil => cases h
  | cons hd tl ih =>
    cases i with
    | zero => rfl
    | succ j =>
      simp only [List.set, List.getD, List.getElem?_cons_succ]
      have hj : j < tl.length := by simpa using h
      have := ih j hj
      simpa [List.getD] using this

/-- C5: On an invariant-respecting pattern, writing a cell in range and
reading it back returns the written value, and a write at or beyond
`total_steps` raises (none) before modifying anything. -/
theorem toggle_then_read (p : Pattern) (d : String) (i : Nat) (b : Bool)
    (hd : isDrum d = true)
    (hinv : ∀ dn ∈ DRUM_NOTES, (p dn.1).length = total_steps p) :
    (i < total_steps p →
      (toggle p d i b).bind (fun q => is_active q d i) = some b)
    ∧ (total_steps p ≤ i → toggle p d i b = none) := by
  have hlen : (p d).length = total_steps p := by
    simp only [isDrum, List.elem_eq_mem, decide_eq_true_eq, List.mem_map] at hd
    obtain ⟨dn, hdn, hfst⟩ := hd
    rw [← hfst]
    exact hinv dn hdn
  constructor
  · intro hi
    have hi2 : i < (p d).length := by omega
    simp only [toggle, hi2, if_true, Option.some_bind, is_active,
      List.length_set, if_pos rfl]
    rw [getD_set_self (p d) i (if b then 1 else 0) hi2]
    cases b <;> rfl
  · intro hi
    have hi2 : ¬ i < (p d).length := by omega
    simp [toggle, hi2]

/-- C5 witness: on the one-group pattern, writing kick step 3 on and
reading it back gives `true`; writing kick step 99 raises. -/
theorem toggle_then_read_witness :
    (toggle pattern_one "kick" 3 true).bind (fun q => is_active q "kick" 3)
        = some true
    ∧ toggle pattern_one "kick" 99 true = none :=
  ⟨(toggle_then_read pattern_one "kick" 3 true (by decide) (by decide)).1
      (by decide),
   (toggle_then_read pattern_one "kick" 99 true (by decide) (by decide)).2
      (by decide)⟩

/-! ### Playback clock -/

/-- A tick on a non-empty pattern: the cursor advances by one modulo
`total_steps`, everything else unchanged, and the step's events go out. -/
theorem play_step_advance (s : DM) (h : total_steps s.pattern ≠ 0) :
    play_step s = some
      ({ s with step_index := (s.step_index + 1) % total_steps s.pattern },
       tick_events s.pattern s.outport s.step_index) := by
  simp [play_step, h]

/-- After `k` ticks from a cursor below `N = total_steps`, the cursor sits
at `(start + k) % N`. -/
theorem run_ticks_cursor (N : Nat) : ∀ (k : Nat) (s : DM),
    total_steps s.pattern = N → N ≠ 0 → s.step_index < N →
    run_ticks k s = some { s with step_index := (s.step_index + k) % N } := by
  intro k
  induction k with
  | zero =>
    intro s hN h0 hc
    simp only [run_ticks]
    have hc2 : (s.step_index + 0) % N = s.step_index := by
      rw [Nat.add_zero]; exact Nat.mod_eq_of_lt hc
    rw [hc2]
  | succ k ih =>
    intro s hN h0 hc
    have hne : total_steps s.pattern ≠ 0 := by rw [hN]; exact h0
    simp only [run_ticks, play_step_advance s hne, Option.some_bind]
    have hc1 : (s.step_index + 1) % total_steps s.pattern < N := by
      rw [hN]; exact Nat.mod_lt _ (Nat.pos_of_ne_zero h0)
    have step :=
      ih { s with step_index := (s.step_index + 1) % total_steps s.pattern }
        hN h0 hc1
    rw [step]
    have harith :
        ((s.step_index + 1) % total_steps s.pattern + k) % N
          = (s.step_index + (k + 1)) % N := by
      rw [hN, Nat.mod_add_mod]
      congr 1
      omega
    rw [harith]

/-- C8: On a pattern with `total_steps = N > 0` and a cursor in `[0, N)`,
exactly `N` ticks return the machine to its starting state: the cursor
sequence is cyclic with period `N`, wrapping to 0 after the last step. -/
theorem cursor_cycle (s : DM) (h : total_steps s.pattern ≠ 0)
    (hc : s.step_index < total_steps s.pattern) :
    run_ticks (total_steps s.pattern) s = some s := by
  rw [run_ticks_cursor (total_steps s.pattern) (total_steps s.pattern) s rfl h hc]
  have heq : (s.step_index + total_steps s.pattern) % total_steps s.pattern
      = s.step_index := by
    rw [Nat.add_mod_right]; exact Nat.mod_eq_of_lt hc
  rw [heq]

/-- C8 witness: 16 ticks from the freshly constructed machine (16 steps,
cursor 0) come back to the same state. -/
theorem cursor_cycle_witness :
    run_ticks (total_steps (init_state true).pattern) (init_state true)
      = some (init_state true) :=
  cursor_cycle (init_state true) (by decide) (by decide)

/-- C10: A tick on a non-empty pattern advances the cursor by exactly one
modulo `total_steps` whether or not a live sink is present: runs differing
only in sink availability make the same cursor move, and the sink-less run
emits no events (the `if self.outport` guard encloses only the emission,
never the cursor update). -/
theorem sink_presence_cursor (s : DM) (h : total_steps s.pattern ≠ 0) :
    play_step { s with outport := true }
        = some ({ s with outport := true,
                         step_index :=
                           (s.step_index + 1) % total_steps s.pattern },
                tick_events s.pattern true s.step_index)
    ∧ play_step { s with outport := false }
        = some ({ s with outport := false,
                         step_index :=
                           (s.step_index + 1) % total_steps s.pattern },
                []) :=
  ⟨play_step_advance { s with outport := true } h,
   play_step_advance { s with outport := false } h⟩

/-- C10 witness: the two sink variants of the constructed machine make the
same cursor move, the sink-less one silently. -/
theorem sink_presence_cursor_witness :
    play_step { init_state true with outport := true }
        = some ({ init_state true with
                    outport := true,
                    step_index := ((init_state true).step_index + 1)
                      % total_steps (init_state true).pattern },
                tick_events (init_state true).pattern true
                  (init_state true).step_index)
    ∧ play_step { init_state true with outport := false }
        = some ({ init_state true with
                    outport := false,
                    step_index := ((init_state true).step_index + 1)
                      % total_steps (init_state true).pattern }, []) :=
  sink_presence_cursor (init_state true) (by decide)

/-- C3 counterexample: on an empty pattern `start_playback` still starts
the timer (ticking is scheduled), and the tick it schedules is not a
no-op: `play_step` hits `% 0` (a `ZeroDivisionError`, modelled `none`). -/
theorem empty_start_cex :
    (start_playback (pre_ui_state true)).timer_on = true
    ∧ play_step (start_playback (pre_ui_state true)) = none :=
  ⟨rfl, rfl⟩

/-- C3 amended: `start_playback` has no emptiness check: on a pattern with
`total_steps = 0` it starts the timer all the same (its own arithmetic
divides only by the spinner-bounded bpm, so `start` itself raises
nothing and touches neither pattern nor cursor), and a tick fired against
the empty pattern raises `ZeroDivisionError` at the cursor-advance modulo
instead of being a no-op.  (Unreachable in the shipped UI: construction
adds a 16-step group and groups are never removed.) -/
theorem empty_start_ticks (s : DM) (h : total_steps s.pattern = 0) :
    (start_playback s).timer_on = true
    ∧ (start_playback s).pattern = s.pattern
    ∧ (start_playback s).step_index = s.step_index
    ∧ play_step (start_playback s) = none := by
  refine ⟨rfl, rfl, rfl, ?_⟩
  simp [play_step, start_playback, h]

/-- C3 witness: the pre-UI state has an empty pattern and exhibits the
amended behaviour. -/
theorem empty_start_ticks_witness :
    (start_playback (pre_ui_state false)).timer_on = true
    ∧ (start_playback (pre_ui_state false)).pattern = (pre_ui_state false).pattern
    ∧ (start_playback (pre_ui_state false)).step_index
        = (pre_ui_state false).step_index
    ∧ play_step (start_playback (pre_ui_state false)) = none :=
  empty_start_ticks (pre_ui_state false) rfl

/-- C9: Toggling an in-range cell to the active state, with a live sink
present, emits exactly one note-on/note-off pair for the voice's note —
the machine's playback fields (`is_playing`, `timer_on`, cursor) are
arbitrary here, so this holds in every playback state, Stopped included;
toggling to the inactive state emits no event. -/
theorem preview_fires_once (s : DM) (d : String) (i note : Nat)
    (hi : i < (s.pattern d).length) (hout : s.outport = true) :
    (∃ s2, make_toggle s d i note true
        = some (s2, [Msg.note_on 9 note 127 0, Msg.note_off 9 note 127 100]))
    ∧ ∃ s3, make_toggle s d i note false = some (s3, []) := by
  constructor
  · exact ⟨{ s with pattern := fun d2 =>
        if d2 = d then (s.pattern d).set i 1 else s.pattern d2 },
      by simp [make_toggle, toggle, hi, preview_note, hout]⟩
  · exact ⟨{ s with pattern := fun d2 =>
        if d2 = d then (s.pattern d).set i 0 else s.pattern d2 },
      by simp [make_toggle, toggle, hi]⟩

/-- C9 witness: toggling kick step 0 on the constructed (stopped) machine
with a sink emits the single pair; toggling it off emits nothing. -/
theorem preview_fires_once_witness :
    (∃ s2, make_toggle (init_state true) "kick" 0 36 true
        = some (s2, [Msg.note_on 9 36 127 0, Msg.note_off 9 36 127 100]))
    ∧ ∃ s3, make_toggle (init_state true) "kick" 0 36 false = some (s3, []) :=
  preview_fires_once (init_state true) "kick" 0 36 (by decide) rfl

/-- C7 counterexample: immediately after construction the pattern is not
empty — `init_ui` (called from `__init__`) has already added the first
group, so `group_count = 1` and `total_steps = 16`. -/
theorem construction_not_empty_cex :
    (init_state true).group_count = 1
    ∧ total_steps (init_state true).pattern = 16
    ∧ total_steps (init_state true).pattern ≠ 0 := by
  decide

/-- C7 amended: `__init__` first builds the pattern dict empty with zero
groups, but before construction finishes `init_ui` adds the first group,
so the freshly constructed machine has exactly one group — 16 default-off
steps per voice; afterwards the pattern grows only through add-group
operations (a cell toggle never changes any length). -/
theorem construction_one_group (outport : Bool) :
    (pre_ui_state outport).group_count = 0
    ∧ (∀ dn ∈ DRUM_NOTES, (pre_ui_state outport).pattern dn.1 = [])
    ∧ (init_state outport).group_count = 1
    ∧ (∀ dn ∈ DRUM_NOTES,
        (init_state outport).pattern dn.1 = List.replicate STEPS_PER_GROUP 0)
    ∧ ∀ (p : Pattern) (d : String) (i : Nat) (b : Bool) (q : Pattern),
        toggle p d i b = some q → ∀ d2, (q d2).length = (p d2).length := by
  refine ⟨rfl, fun dn _ => rfl, rfl, ?_, ?_⟩
  · intro dn hdn
    simp [init_state, add_step_group, pre_ui_state, init_pattern,
      isDrum_of_mem dn hdn]
  · exact fun p d i b q h => toggle_length p d i b q h

/-! ### Tempo meta event -/

/-- The written tempo is `60000000 / bpm` rounded to the nearest integer:
it differs from the exact rational by at most one half. -/
theorem bpm2tempo_bounds (bpm : Nat) (hpos : 0 < bpm) :
    2 * 60000000 ≤ 2 * (bpm * bpm2tempo bpm) + bpm
    ∧ 2 * (bpm * bpm2tempo bpm) ≤ 2 * 60000000 + bpm := by
  have hdm : bpm * (60000000 / bpm) + 60000000 % bpm = 60000000 :=
    Nat.div_add_mod 60000000 bpm
  have hrlt : 60000000 % bpm < bpm := Nat.mod_lt 60000000 hpos
  simp only [bpm2tempo]
  generalize hq : 60000000 / bpm = q at hdm ⊢
  generalize hr : 60000000 % bpm = r at hdm hrlt ⊢
  have hmul : bpm * (q + 1) = bpm * q + bpm := Nat.mul_succ bpm q
  split_ifs with hA hB hC
  · exact ⟨by linarith, by linarith⟩
  · exact ⟨by linarith [hmul], by linarith [hmul]⟩
  · exact ⟨by linarith, by linarith⟩
  · exact ⟨by linarith [hmul], by linarith [hmul]⟩

/-- When `bpm` divides 60000000 the rounding is exact. -/
theorem bpm2tempo_exact (bpm : Nat) (hpos : 0 < bpm)
    (hdvd : bpm ∣ 60000000) :
    bpm2tempo bpm = 60000000 / bpm := by
  have hr0 : 60000000 % bpm = 0 := Nat.dvd_iff_mod_eq_zero.mp hdvd
  simp only [bpm2tempo, hr0, Nat.mul_zero]
  rw [if_pos hpos]

/-- C6 amended: For every BPM in `[30, 300]`, the exported track is the
tempo meta message first, followed by the note events of the steps in
increasing step order, and within a step the events follow Voice Table
(insertion) order (the active voices of a step form a sublist of
`DRUM_NOTES`).  The microseconds-per-beat value written is
`60_000_000 / bpm` rounded to the nearest integer (`bpm2tempo`): within
half a unit of the exact rational, and exactly `60_000_000 / bpm`
whenever `bpm` divides `60_000_000`. -/
theorem export_starts_with_tempo (p : Pattern) (bpm : Nat)
    (h1 : 30 ≤ bpm) (h2 : bpm ≤ 300) :
    export_midi p bpm
      = Msg.set_tempo (bpm2tempo bpm) 0
          :: (List.range (total_steps p)).flatMap (export_step p ticks_per_step)
    ∧ (2 * 60000000 ≤ 2 * (bpm * bpm2tempo bpm) + bpm
        ∧ 2 * (bpm * bpm2tempo bpm) ≤ 2 * 60000000 + bpm)
    ∧ (bpm ∣ 60000000 → bpm2tempo bpm = 60000000 / bpm)
    ∧ ∀ step, (active_voices p step).Sublist DRUM_NOTES := by
  have hpos : 0 < bpm := by omega
  refine ⟨rfl, bpm2tempo_bounds bpm hpos, bpm2tempo_exact bpm hpos, ?_⟩
  intro step
  exact List.filter_sublist DRUM_NOTES

/-- C6 counterexample: at `bpm = 70` (inside `[30, 300]`) the tempo
written is 857143, but `60000000 / 70` is not an integer
(`60000000 % 70 = 40`) and floor division gives 857142 — the written
value does not equal `60_000_000 / bpm`. -/
theorem export_tempo_cex :
    (export_midi init_pattern 70).head? = some (Msg.set_tempo (bpm2tempo 70) 0)
    ∧ bpm2tempo 70 = 857143
    ∧ 60000000 / 70 = 857142
    ∧ 60000000 % 70 ≠ 0 := by
  refine ⟨rfl, by decide, by decide, by decide⟩

/-- C6 witness: the amended statement at `bpm = 120` on the empty
pattern. -/
theorem export_starts_with_tempo_witness :
    export_midi init_pattern 120
      = Msg.set_tempo (bpm2tempo 120) 0
          :: (List.range (total_steps init_pattern)).flatMap
              (export_step init_pattern ticks_per_step)
    ∧ (2 * 60000000 ≤ 2 * (120 * bpm2tempo 120) + 120
        ∧ 2 * (120 * bpm2tempo 120) ≤ 2 * 60000000 + 120)
    ∧ (120 ∣ 60000000 → bpm2tempo 120 = 60000000 / 120)
    ∧ ∀ step, (active_voices init_pattern step).Sublist DRUM_NOTES :=
  export_starts_with_tempo init_pattern 120 (by decide) (by decide)
